import Mathlib

/-!
Verification of the Schedule & Pattern Resolution Engine of the carris
repository (src/main.ts and src/gpx.ts), as a shallow embedding in Lean.

Strings are compared the way the source compares them: JavaScript applies
code-unit lexicographic comparison to fixed-width YYYYMMDD date strings and
HH:MM:SS time strings, which is modelled by the executable function strLe
below. Numbers that the source only ever passes through string
interpolation (shape coordinates, stop latitudes and longitudes) are
modelled by their decimal string renderings, since no arithmetic is ever
performed on them.
-/

namespace Carris

/-- Lexicographic comparison of character lists, the semantics of the
JavaScript relational operator on strings restricted to the data handled
here. -/
def charsLe : List Char → List Char → Bool
  | [], _ => true
  | _ :: _, [] => false
  | a :: as, b :: bs => if a = b then charsLe as bs else decide (a < b)

/-- Lexicographic order on strings, as used by the source for date and time
comparison and by the default Array sort on strings. -/
def strLe (a b : String) : Bool := charsLe a.data b.data

/- ------------------------------------------------------------------ -/
/- Data model, translated from the interfaces in src/api.ts.           -/
/- ------------------------------------------------------------------ -/

/-- Stop record inside a path entry, from the Pattern interface. Latitude
and longitude are strings in the source interface. -/
structure Stop where
  id : String
  name : String
  lat : String
  lon : String
deriving DecidableEq, Repr

/-- One entry of a pattern path: a stop plus its sequence number. -/
structure PathEntry where
  stop : Stop
  stop_sequence : Nat
deriving DecidableEq, Repr

/-- One entry of a trip schedule. -/
structure ScheduleEntry where
  arrival_time : String
  stop_id : String
  stop_sequence : Nat
deriving DecidableEq, Repr

/-- Trip record, from the Pattern interface. -/
structure Trip where
  id : String
  dates : List String
  schedule : List ScheduleEntry
deriving DecidableEq, Repr

/-- Pattern record from src/api.ts. The short_name field is modelled as an
Option because the source guards against it being absent at runtime (the
metadata name in createGPX falls back to the id when it is falsy). -/
structure Pattern where
  id : String
  line_id : String
  route_id : String
  short_name : Option String
  direction : Nat
  path : List PathEntry
  shape_id : String
  trips : List Trip
deriving DecidableEq, Repr

/-- Shape record: the geojson LineString coordinates, each pair in
(longitude, latitude) order, kept as decimal strings since the serializer
only interpolates them. -/
structure Shape where
  coordinates : List (String × String)
deriving DecidableEq, Repr

/-- Resolved (trip, pattern, start time) triple, the TripData interface of
src/main.ts. -/
structure TripData where
  trip : Trip
  pattern : Pattern
  startTime : String
deriving DecidableEq, Repr

/-- Result of the service calendar resolution performed inside
renderSchedules: the collected trips, the isFallback flag, and the fallback
date that was used when the flag is set. -/
structure ResolvedItinerary where
  trips : List TripData
  isFallback : Bool
  fallbackDate : Option String
deriving DecidableEq, Repr

/- ------------------------------------------------------------------ -/
/- Direction Classifier: getDestinationName from src/main.ts.          -/
/- ------------------------------------------------------------------ -/

/-- Update of the JavaScript counts record at one key: the expression
counts[lastStop] = (counts[lastStop] || 0) + weight inserts the key at the
end on first use and adds to the stored value afterwards. Insertion order
of keys is preserved, matching object key enumeration order for the
non-index string keys used here. -/
def bump (counts : List (String × Nat)) (name : String) (w : Nat) : List (String × Nat) :=
  match counts with
  | [] => [(name, w)]
  | (n, c) :: rest => if n = name then (n, c + w) :: rest else (n, c) :: bump rest name w

/-- Vote accumulation loop of getDestinationName: each pattern with a
non-empty path votes for the name of its last path stop, weighted by
p.trips.length. The conditional weight expression in the source tests the
truthiness of p.trips, and an array is always truthy in JavaScript, so for
the declared Pattern type the weight is always the trips count. -/
def accumulateVotes (counts : List (String × Nat)) : List Pattern → List (String × Nat)
  | [] => counts
  | p :: ps =>
    accumulateVotes
      (match p.path.getLast? with
        | some entry => bump counts entry.stop.name p.trips.length
        | none => counts) ps

/-- One step of the selection loop of getDestinationName: the running best
name and count are replaced when the next count strictly exceeds the
running maximum. -/
def pickStep (acc : String × Int) (e : String × Nat) : String × Int :=
  if (e.2 : Int) > acc.2 then (e.1, (e.2 : Int)) else acc

/-- Selection loop of getDestinationName: fold over the accumulated
entries keeping the first entry whose count strictly exceeds the running
maximum, which starts at -1. -/
def pickBest (d : String) (entries : List (String × Nat)) : String :=
  (entries.foldl pickStep (d, (-1 : Int))).1

/-- Destination label inference of src/main.ts, closed over the list of
patterns of the current line and a direction code. -/
def getDestinationName (patterns : List Pattern) (dir : Nat) : String :=
  let dirPatterns := patterns.filter (fun p => p.direction == dir)
  if dirPatterns.length = 0 then (if dir == 0 then "Ida" else "Volta")
  else pickBest (if dir == 0 then "Ida" else "Volta") (accumulateVotes [] dirPatterns)

/-- Largest accumulated count in a list of vote entries. -/
def maxVal (es : List (String × Nat)) : Nat := es.foldr (fun e m => max e.2 m) 0

/-- First entry of the list holding the given count, if any. -/
def firstAtMax (m : Nat) : List (String × Nat) → Option String
  | [] => none
  | e :: rest => if e.2 = m then some e.1 else firstAtMax m rest

/-- Reference label selection following the specification words: the name
with the strictly greatest accumulated weight, ties broken by
first-encountered order, falling back to the default when there are no
entries. -/
def specLabel (d : String) (es : List (String × Nat)) : String :=
  (firstAtMax (maxVal es) es).getD d

/-- Vote weight as described by the specification sentence for claim C1: a
pattern with zero trips counts with weight 1, never weight 0. -/
def specC1Weight (p : Pattern) : Nat :=
  if p.trips.length = 0 then 1 else p.trips.length

/-- Vote accumulation as the specification sentence for claim C1 would
have it, differing from the source only in the weight given to a pattern
with zero trips. -/
def accumulateVotesSpecC1 (counts : List (String × Nat)) : List Pattern → List (String × Nat)
  | [] => counts
  | p :: ps =>
    accumulateVotesSpecC1
      (match p.path.getLast? with
        | some entry => bump counts entry.stop.name (specC1Weight p)
        | none => counts) ps

/-- Destination label inference with the claim C1 weighting, for
comparison against the source behaviour. -/
def getDestinationNameSpecC1 (patterns : List Pattern) (dir : Nat) : String :=
  let dirPatterns := patterns.filter (fun p => p.direction == dir)
  if dirPatterns.length = 0 then (if dir == 0 then "Ida" else "Volta")
  else pickBest (if dir == 0 then "Ida" else "Volta") (accumulateVotesSpecC1 [] dirPatterns)

/-- Name of the last path stop of a pattern, if the path is non-empty. -/
def lastStopName (p : Pattern) : Option String :=
  p.path.getLast?.map (fun e => e.stop.name)

/-- Whether a pattern votes for the given destination name. -/
def votesFor (name : String) (p : Pattern) : Bool :=
  lastStopName p == some name

/-- Total source-code vote weight received by a destination name from a
list of patterns: the sum of the trip counts of the patterns voting for
it. -/
def voteTotal (name : String) (ps : List Pattern) : Nat :=
  (ps.filter (votesFor name)).foldr (fun p s => p.trips.length + s) 0

/-- Lookup in the accumulated vote entries. -/
def lookupCount : List (String × Nat) → String → Option Nat
  | [], _ => none
  | (n, c) :: rest, name => if n = name then some c else lookupCount rest name

/- ------------------------------------------------------------------ -/
/- Service Calendar Resolver: findClosestDate, getTripsForDate and the  -/
/- fallback logic of renderSchedules in src/main.ts.                   -/
/- ------------------------------------------------------------------ -/

/-- Date fallback of src/main.ts. The caller passes the available dates
already sorted. The source indexes the filtered array at length - 1 and
the full array at 0; both accesses are guarded, so the defaults of
getLastD and headD are unreachable. -/
def findClosestDate (targetDate : String) (availableDates : List String) : String :=
  if availableDates.length = 0 then targetDate
  else
    let pastOrEqualDates := availableDates.filter (fun d => strLe d targetDate)
    if 0 < pastOrEqualDates.length then pastOrEqualDates.getLastD targetDate
    else availableDates.headD targetDate

/-- Trip collection of renderSchedules: every trip of a pattern of the
selected direction whose dates include the target date and whose schedule
has a first entry, paired with its pattern and that first arrival time. -/
def getTripsForDate (patterns : List Pattern) (direction : Nat) (targetDate : String) :
    List TripData :=
  (patterns.filter (fun p => p.direction == direction)).flatMap (fun pattern =>
    pattern.trips.filterMap (fun trip =>
      if trip.dates.contains targetDate then
        match trip.schedule with
        | [] => none
        | firstStop :: _ =>
          some { trip := trip, pattern := pattern, startTime := firstStop.arrival_time }
      else none))

/-- Union of all service dates of the selected direction, the
availableDates set filled as a side effect of the trip collection loop. -/
def allServiceDates (patterns : List Pattern) (direction : Nat) : List String :=
  (patterns.filter (fun p => p.direction == direction)).flatMap
    (fun p => p.trips.flatMap (fun t => t.dates))

/-- Stable insertion of an element into a list, by string key: the element
is placed before the first existing element whose key is not below its
own. -/
def insertKeyed (key : α → String) (x : α) : List α → List α
  | [] => [x]
  | y :: ys => if strLe (key x) (key y) then x :: y :: ys else y :: insertKeyed key x ys

/-- Stable sort by a string key. JavaScript requires Array sort to be
stable, so any stable sorting algorithm is a faithful model; insertion
sort is used here. -/
def sortKeyed (key : α → String) : List α → List α
  | [] => []
  | x :: xs => insertKeyed key x (sortKeyed key xs)

/-- Service calendar resolution of renderSchedules: collect the trips for
the requested date; if none and some service date exists, compute the
fallback date over the sorted distinct available dates, and re-collect
only when the fallback date differs from the request. -/
def resolveItinerary (patterns : List Pattern) (direction : Nat) (dateStr : String) :
    ResolvedItinerary :=
  let allTrips := getTripsForDate patterns direction dateStr
  let avail := allServiceDates patterns direction
  if allTrips.isEmpty && !avail.isEmpty then
    let sortedDates := sortKeyed id avail.dedup
    let fallbackDateStr := findClosestDate dateStr sortedDates
    if fallbackDateStr != dateStr then
      { trips := getTripsForDate patterns direction fallbackDateStr,
        isFallback := true, fallbackDate := some fallbackDateStr }
    else { trips := allTrips, isFallback := false, fallbackDate := none }
  else { trips := allTrips, isFallback := false, fallbackDate := none }

/-- Nominal start time of a trip: the arrival time of the first schedule
entry, with an unreachable default for an empty schedule. -/
def tripStart (t : Trip) : String :=
  match t.schedule with
  | [] => ""
  | e :: _ => e.arrival_time

/-- Trip collection as described by claim C3: exactly the trips of the
selected direction whose service-date set contains the date, each paired
with its owning pattern and its first scheduled arrival time. -/
def specTripsForDate (patterns : List Pattern) (direction : Nat) (d : String) :
    List TripData :=
  (patterns.filter (fun p => p.direction == direction)).flatMap (fun p =>
    (p.trips.filter (fun t => t.dates.contains d)).map
      (fun t => { trip := t, pattern := p, startTime := tripStart t }))

/-- Trip ordering of renderSchedules: the collected trips sorted by start
time, localeCompare on the fixed-width HH:MM:SS strings being
lexicographic comparison. -/
def sortTrips (l : List TripData) : List TripData :=
  sortKeyed (fun td => td.startTime) l

/- ------------------------------------------------------------------ -/
/- Track Serializer: createGPX from src/gpx.ts.                        -/
/- ------------------------------------------------------------------ -/

/-- Semantics of the JavaScript expression a or-else b for a possibly
absent string a: both an absent value and the empty string are falsy. -/
def jsOr (s : Option String) (d : String) : String :=
  match s with
  | none => d
  | some v => if v = "" then d else v

/-- Semantics of interpolating a possibly absent string into a template
literal: an absent value prints as the text undefined. -/
def jsInterp (s : Option String) : String :=
  match s with
  | none => "undefined"
  | some v => v

/-- Track serializer of src/gpx.ts, with the same sequence of string
appends as the source. The waypoint guard tests the truthiness of the stop
latitude and longitude strings, which for strings means being non-empty;
the includeStops guard alone decides the waypoint section because the path
array is always truthy. -/
def createGPX (pattern : Pattern) (shape : Shape) (includeStops : Bool) : String :=
  let coords := shape.coordinates
  let gpx := "<?xml version=\"1.0\" encoding=\"UTF-8\"?>\n"
  let gpx := gpx ++ "<gpx version=\"1.1\" creator=\"CarrisDriverApp\" xmlns=\"http://www.topografix.com/GPX/1/1\">\n"
  let gpx := gpx ++ ("  <metadata>\n    <name>" ++ jsOr pattern.short_name pattern.id
    ++ "</name>\n  </metadata>\n")
  let gpx :=
    if includeStops then
      pattern.path.foldl (fun acc e =>
        if e.stop.lat != "" && e.stop.lon != "" then
          acc ++ ("  <wpt lat=\"" ++ e.stop.lat ++ "\" lon=\"" ++ e.stop.lon ++ "\">\n"
            ++ "    <name>" ++ e.stop.name ++ "</name>\n"
            ++ "    <desc>Stop Sequence: " ++ toString e.stop_sequence ++ "</desc>\n"
            ++ "  </wpt>\n")
        else acc) gpx
    else gpx
  let gpx := gpx ++ "  <trk>\n"
  let gpx := gpx ++ ("    <name>" ++ jsInterp pattern.short_name ++ " ("
    ++ (if pattern.direction == 0 then "Ida" else "Volta") ++ ")</name>\n")
  let gpx := gpx ++ "    <trkseg>\n"
  let gpx := coords.foldl (fun acc c =>
    acc ++ ("      <trkpt lat=\"" ++ c.2 ++ "\" lon=\"" ++ c.1 ++ "\"></trkpt>\n")) gpx
  let gpx := gpx ++ "    </trkseg>\n"
  let gpx := gpx ++ "  </trk>\n"
  gpx ++ "</gpx>"

/-- Concatenation of the rendered pieces of a list. -/
def concatMap (f : α → String) (l : List α) : String :=
  (l.map f).foldr (· ++ ·) ""

/-- Fixed document header emitted by createGPX. -/
def gpxHeader : String :=
  "<?xml version=\"1.0\" encoding=\"UTF-8\"?>\n"
    ++ "<gpx version=\"1.1\" creator=\"CarrisDriverApp\" xmlns=\"http://www.topografix.com/GPX/1/1\">\n"

/-- Metadata block of the document: the pattern short name with fallback
to the pattern id. -/
def metadataBlock (pattern : Pattern) : String :=
  "  <metadata>\n    <name>" ++ jsOr pattern.short_name pattern.id ++ "</name>\n  </metadata>\n"

/-- Rendering of one waypoint, empty when a coordinate string is empty. -/
def wptBlock (e : PathEntry) : String :=
  if e.stop.lat != "" && e.stop.lon != "" then
    "  <wpt lat=\"" ++ (e.stop.lat ++ ("\" lon=\"" ++ (e.stop.lon ++ ("\">\n"
      ++ ("    <name>" ++ (e.stop.name ++ ("</name>\n"
      ++ ("    <desc>Stop Sequence: " ++ (toString e.stop_sequence ++ ("</desc>\n"
      ++ "  </wpt>\n"))))))))))
  else ""

/-- Waypoint section: one waypoint per path entry with coordinates, only
when stops are requested. -/
def wptSection (pattern : Pattern) (includeStops : Bool) : String :=
  if includeStops then concatMap wptBlock pattern.path else ""

/-- Direction word used in the track name. -/
def dirWord (d : Nat) : String := if d == 0 then "Ida" else "Volta"

/-- Rendering of one track point: latitude and longitude swapped from the
(longitude, latitude) order of the shape coordinate. -/
def trkptLine (c : String × String) : String :=
  "      <trkpt lat=\"" ++ (c.2 ++ ("\" lon=\"" ++ (c.1 ++ "\"></trkpt>\n")))

/-- Track name line: the short name interpolated with no fallback,
followed by the direction word. -/
def trkName (pattern : Pattern) : String :=
  "    <name>" ++ jsInterp pattern.short_name ++ " (" ++ dirWord pattern.direction ++ ")</name>\n"

/-- Track section and document closing: one track, one segment, one track
point per shape coordinate in shape order. -/
def trkSection (pattern : Pattern) (shape : Shape) : String :=
  "  <trk>\n" ++ trkName pattern ++ "    <trkseg>\n"
    ++ concatMap trkptLine shape.coordinates ++ "    </trkseg>\n" ++ "  </trk>\n" ++ "</gpx>"

/-- Count of the occurrences of a character pattern in a character list,
one for every starting position at which the pattern appears. -/
def countOccur (pat : List Char) (s : List Char) : Nat :=
  ((List.range s.length).filter (fun i => pat == (s.drop i).take pat.length)).length

/- ------------------------------------------------------------------ -/
/- Order lemmas for the string comparison.                             -/
/- ------------------------------------------------------------------ -/

theorem charsLe_refl (a : List Char) : charsLe a a = true := by
  induction a with
  | nil => rfl
  | cons x xs ih => simp [charsLe, ih]

theorem charsLe_total (a b : List Char) : charsLe a b = true ∨ charsLe b a = true := by
  induction a generalizing b with
  | nil => left; rfl
  | cons x xs ih =>
    cases b with
    | nil => right; rfl
    | cons y ys =>
      by_cases h : x = y
      · subst h
        simp only [charsLe, if_pos rfl]
        exact ih ys
      · rcases lt_trichotomy x y with hlt | heq | hgt
        · left; simp [charsLe, h, hlt]
        · exact absurd heq h
        · right; simp [charsLe, Ne.symm h, hgt]

theorem charsLe_trans {a b c : List Char} (hab : charsLe a b = true)
    (hbc : charsLe b c = true) : charsLe a c = true := by
  induction a generalizing b c with
  | nil => rfl
  | cons x xs ih =>
    cases b with
    | nil => simp [charsLe] at hab
    | cons y ys =>
      cases c with
      | nil => simp [charsLe] at hbc
      | cons z zs =>
        by_cases hxy : x = y <;> by_cases hyz : y = z
        · subst hxy; subst hyz
          simp only [charsLe, if_pos rfl] at *
          exact ih hab hbc
        · subst hxy
          simp only [charsLe, if_pos rfl, if_neg hyz, decide_eq_true_eq] at *
          simp [charsLe, hyz, hbc]
        · subst hyz
          simp only [charsLe, if_neg hxy, if_pos rfl, decide_eq_true_eq] at *
          simp [charsLe, hxy, hab]
        · simp only [charsLe, if_neg hxy, if_neg hyz, decide_eq_true_eq] at hab hbc
          have hxz : x < z := lt_trans hab hbc
          have hne : x ≠ z := ne_of_lt hxz
          simp [charsLe, hne, hxz]

theorem charsLe_antisymm {a b : List Char} (hab : charsLe a b = true)
    (hba : charsLe b a = true) : a = b := by
  induction a generalizing b with
  | nil =>
    cases b with
    | nil => rfl
    | cons y ys => simp [charsLe] at hba
  | cons x xs ih =>
    cases b with
    | nil => simp [charsLe] at hab
    | cons y ys =>
      by_cases hxy : x = y
      · subst hxy
        simp only [charsLe, if_pos rfl] at hab hba
        rw [ih hab hba]
      · simp only [charsLe, if_neg hxy, decide_eq_true_eq] at hab
        simp only [charsLe, if_neg (Ne.symm hxy), decide_eq_true_eq] at hba
        exact absurd hab (lt_asymm hba)

theorem strLe_refl (a : String) : strLe a a = true := charsLe_refl a.data

theorem strLe_total (a b : String) : strLe a b = true ∨ strLe b a = true :=
  charsLe_total a.data b.data

theorem strLe_trans {a b c : String} (h1 : strLe a b = true) (h2 : strLe b c = true) :
    strLe a c = true := charsLe_trans h1 h2

theorem strLe_antisymm {a b : String} (h1 : strLe a b = true) (h2 : strLe b a = true) :
    a = b := by
  cases a; cases b
  exact congrArg String.mk (charsLe_antisymm h1 h2)

theorem strLe_of_not_strLe {a b : String} (h : strLe a b = false) : strLe b a = true := by
  rcases strLe_total a b with h1 | h1
  · rw [h1] at h; cases h
  · exact h1

/- ------------------------------------------------------------------ -/
/- Helpers for sorted lists.                                           -/
/- ------------------------------------------------------------------ -/

theorem getLastD_mem {α : Type} : ∀ (l : List α) (d : α), l ≠ [] → l.getLastD d ∈ l := by
  intro l
  induction l with
  | nil => intro d h; exact absurd rfl h
  | cons x xs ih =>
    intro d _
    rw [List.getLastD_cons]
    cases hx : xs with
    | nil => subst hx; simp
    | cons y ys =>
      subst hx
      exact List.mem_cons_of_mem x (ih x (by simp))

theorem headD_mem {α : Type} (l : List α) (d : α) (h : l ≠ []) : l.headD d ∈ l := by
  cases l with
  | nil => exact absurd rfl h
  | cons x xs => simp [List.headD]

/-- In a list that is pairwise related by a reflexive relation, every
element is related to the last element. -/
theorem pairwise_rel_getLastD {α : Type} {R : α → α → Prop} (hr : ∀ a, R a a) :
    ∀ (l : List α) (d : α), l.Pairwise R → ∀ x ∈ l, R x (l.getLastD d) := by
  intro l
  induction l with
  | nil => intro d _ x hx; cases hx
  | cons a as ih =>
    intro d hp x hx
    rw [List.getLastD_cons]
    rcases List.mem_cons.mp hx with hxa | hxas
    · subst hxa
      cases has : as with
      | nil => subst has; simpa using hr x
      | cons b bs =>
        subst has
        exact (List.pairwise_cons.mp hp).1 _ (getLastD_mem (b :: bs) x (by simp))
    · exact ih a (List.pairwise_cons.mp hp).2 x hxas

/-- In a list that is pairwise related by a reflexive relation, the head is
related to every element. -/
theorem pairwise_headD_rel {α : Type} {R : α → α → Prop} (hr : ∀ a, R a a)
    (l : List α) (d : α) (hp : l.Pairwise R) : ∀ x ∈ l, R (l.headD d) x := by
  cases l with
  | nil => intro x hx; cases hx
  | cons a as =>
    intro x hx
    rcases List.mem_cons.mp hx with hxa | hxas
    · subst hxa; exact hr x
    · exact (List.pairwise_cons.mp hp).1 x hxas

/- ------------------------------------------------------------------ -/
/- Characterization of findClosestDate on sorted input.                -/
/- ------------------------------------------------------------------ -/

/-- When some available date is not after the target, findClosestDate
returns the greatest available date among those. -/
theorem findClosestDate_max (target : String) {A : List String}
    (hs : A.Pairwise (fun a b => strLe a b = true)) (hne : A ≠ [])
    (hP : A.filter (fun d => strLe d target) ≠ []) :
    findClosestDate target A ∈ A ∧ strLe (findClosestDate target A) target = true ∧
      ∀ d ∈ A, strLe d target = true → strLe d (findClosestDate target A) = true := by
  have hlen : ¬ A.length = 0 := fun h => hne (List.length_eq_zero.mp h)
  have hPl : 0 < (A.filter (fun d => strLe d target)).length := List.length_pos.mpr hP
  have hres : findClosestDate target A
      = (A.filter (fun d => strLe d target)).getLastD target := by
    simp only [findClosestDate, if_neg hlen, if_pos hPl]
  have hmemP : (A.filter (fun d => strLe d target)).getLastD target
      ∈ A.filter (fun d => strLe d target) := getLastD_mem _ target hP
  have hmemA := (List.mem_filter.mp hmemP).1
  have hle := (List.mem_filter.mp hmemP).2
  refine ⟨hres ▸ hmemA, hres ▸ hle, ?_⟩
  intro d hd hdle
  have hdP : d ∈ A.filter (fun d => strLe d target) :=
    List.mem_filter.mpr ⟨hd, hdle⟩
  have hsP : (A.filter (fun d => strLe d target)).Pairwise (fun a b => strLe a b = true) :=
    hs.filter _
  rw [hres]
  exact pairwise_rel_getLastD strLe_refl _ target hsP d hdP

/-- When no available date is at or before the target, findClosestDate
returns the least available date. -/
theorem findClosestDate_min (target : String) {A : List String}
    (hs : A.Pairwise (fun a b => strLe a b = true)) (hne : A ≠ [])
    (hP : A.filter (fun d => strLe d target) = []) :
    findClosestDate target A ∈ A ∧ ∀ d ∈ A, strLe (findClosestDate target A) d = true := by
  have hlen : ¬ A.length = 0 := fun h => hne (List.length_eq_zero.mp h)
  have hPl : ¬ 0 < (A.filter (fun d => strLe d target)).length := by
    rw [hP]; simp
  have hres : findClosestDate target A = A.headD target := by
    simp only [findClosestDate, if_neg hlen, if_neg hPl]
  refine ⟨hres ▸ headD_mem A target hne, ?_⟩
  intro d hd
  rw [hres]
  exact pairwise_headD_rel strLe_refl A target hs d hd

/-- A date that is itself available is returned unchanged. -/
theorem findClosestDate_self {A : List String} {R : String}
    (hs : A.Pairwise (fun a b => strLe a b = true)) (hmem : R ∈ A) :
    findClosestDate R A = R := by
  have hne : A ≠ [] := List.ne_nil_of_mem hmem
  have hRP : R ∈ A.filter (fun d => strLe d R) :=
    List.mem_filter.mpr ⟨hmem, strLe_refl R⟩
  have hP : A.filter (fun d => strLe d R) ≠ [] := List.ne_nil_of_mem hRP
  obtain ⟨_, hle, hub⟩ := findClosestDate_max R hs hne hP
  exact strLe_antisymm hle (hub R hmem (strLe_refl R))

/- ------------------------------------------------------------------ -/
/- Properties of the stable keyed sort.                                -/
/- ------------------------------------------------------------------ -/

theorem insertKeyed_perm {α : Type} (key : α → String) (x : α) :
    ∀ l : List α, List.Perm (insertKeyed key x l) (x :: l) := by
  intro l
  induction l with
  | nil => exact List.Perm.refl _
  | cons y ys ih =>
    by_cases h : strLe (key x) (key y) = true
    · simp only [insertKeyed, if_pos h]
      exact List.Perm.refl _
    · simp only [insertKeyed, if_neg h]
      exact (ih.cons y).trans (List.Perm.swap x y ys)

theorem sortKeyed_perm {α : Type} (key : α → String) :
    ∀ l : List α, List.Perm (sortKeyed key l) l := by
  intro l
  induction l with
  | nil => exact List.Perm.refl _
  | cons x xs ih =>
    exact (insertKeyed_perm key x (sortKeyed key xs)).trans (ih.cons x)

theorem mem_sortKeyed {α : Type} (key : α → String) (l : List α) (x : α) :
    x ∈ sortKeyed key l ↔ x ∈ l :=
  (sortKeyed_perm key l).mem_iff

theorem insertKeyed_pairwise {α : Type} (key : α → String) (x : α) {l : List α}
    (hp : l.Pairwise (fun a b => strLe (key a) (key b) = true)) :
    (insertKeyed key x l).Pairwise (fun a b => strLe (key a) (key b) = true) := by
  induction l with
  | nil => simp [insertKeyed]
  | cons y ys ih =>
    obtain ⟨hy, hys⟩ := List.pairwise_cons.mp hp
    by_cases h : strLe (key x) (key y) = true
    · simp only [insertKeyed, if_pos h]
      refine List.pairwise_cons.mpr ⟨?_, hp⟩
      intro z hz
      rcases List.mem_cons.mp hz with hzy | hzys
      · subst hzy; exact h
      · exact strLe_trans h (hy z hzys)
    · simp only [insertKeyed, if_neg h]
      refine List.pairwise_cons.mpr ⟨?_, ih hys⟩
      intro z hz
      have hz2 := (insertKeyed_perm key x ys).mem_iff.mp hz
      rcases List.mem_cons.mp hz2 with hzx | hzys
      · subst hzx
        exact strLe_of_not_strLe (Bool.eq_false_iff.mpr h)
      · exact hy z hzys

theorem sortKeyed_pairwise {α : Type} (key : α → String) :
    ∀ l : List α, (sortKeyed key l).Pairwise (fun a b => strLe (key a) (key b) = true) := by
  intro l
  induction l with
  | nil => simp [sortKeyed]
  | cons x xs ih => exact insertKeyed_pairwise key x ih

theorem insertKeyed_filter {α : Type} (key : α → String) (x : α) (t : String) :
    ∀ l : List α,
      (insertKeyed key x l).filter (fun a => key a == t)
        = (x :: l).filter (fun a => key a == t) := by
  intro l
  induction l with
  | nil => rfl
  | cons y ys ih =>
    by_cases h : strLe (key x) (key y) = true
    · simp only [insertKeyed, if_pos h]
    · simp only [insertKeyed, if_neg h]
      have hne : ¬ (key x = t ∧ key y = t) := by
        rintro ⟨hx, hy⟩
        exact h (hx ▸ hy ▸ strLe_refl t)
      by_cases hyt : (key y == t) = true
      · have hyt2 : key y = t := eq_of_beq hyt
        have hxt : (key x == t) = false :=
          beq_eq_false_iff_ne.mpr (fun hx => hne ⟨hx, hyt2⟩)
        simp only [List.filter_cons, hyt, hxt, ih, if_pos rfl]
        simp [List.filter_cons, hxt]
      · have hyt2 : (key y == t) = false := Bool.eq_false_iff.mpr hyt
        simp only [List.filter_cons, hyt2, ih]
        simp [List.filter_cons, hyt2]

theorem sortKeyed_filter {α : Type} (key : α → String) (t : String) :
    ∀ l : List α,
      (sortKeyed key l).filter (fun a => key a == t) = l.filter (fun a => key a == t) := by
  intro l
  induction l with
  | nil => rfl
  | cons x xs ih =>
    calc (insertKeyed key x (sortKeyed key xs)).filter (fun a => key a == t)
        = (x :: sortKeyed key xs).filter (fun a => key a == t) :=
          insertKeyed_filter key x t (sortKeyed key xs)
      _ = (x :: xs).filter (fun a => key a == t) := by
          simp only [List.filter_cons, ih]

/- ------------------------------------------------------------------ -/
/- Properties of the destination label selection.                      -/
/- ------------------------------------------------------------------ -/

theorem maxVal_cons (e : String × Nat) (es : List (String × Nat)) :
    maxVal (e :: es) = max e.2 (maxVal es) := rfl

theorem le_maxVal {es : List (String × Nat)} : ∀ e ∈ es, e.2 ≤ maxVal es := by
  induction es with
  | nil => intro e he; cases he
  | cons x xs ih =>
    intro e he
    rcases List.mem_cons.mp he with h | h
    · subst h; exact le_max_left _ _
    · exact le_trans (ih e h) (le_max_right _ _)

theorem exists_maxVal : ∀ {es : List (String × Nat)}, es ≠ [] →
    ∃ e ∈ es, e.2 = maxVal es := by
  intro es
  induction es with
  | nil => intro h; exact absurd rfl h
  | cons x xs ih =>
    intro _
    cases hxs : xs with
    | nil => subst hxs; exact ⟨x, List.mem_cons_self x [], by simp [maxVal]⟩
    | cons y ys =>
      subst hxs
      obtain ⟨e, he, heq⟩ := ih (by simp)
      rcases le_total (maxVal (y :: ys)) x.2 with hle | hle
      · exact ⟨x, List.mem_cons_self _ _, by rw [maxVal_cons, Nat.max_eq_left hle]⟩
      · exact ⟨e, List.mem_cons_of_mem x he, by rw [maxVal_cons, Nat.max_eq_right hle, heq]⟩

theorem firstAtMax_isSome {m : Nat} : ∀ {es : List (String × Nat)},
    (∃ e ∈ es, e.2 = m) → ∃ s, firstAtMax m es = some s := by
  intro es
  induction es with
  | nil => rintro ⟨e, he, _⟩; cases he
  | cons x xs ih =>
    rintro ⟨e, he, heq⟩
    by_cases hx : x.2 = m
    · exact ⟨x.1, by simp [firstAtMax, hx]⟩
    · rcases List.mem_cons.mp he with h | h
      · subst h; exact absurd heq hx
      · obtain ⟨s, hs⟩ := ih ⟨e, h, heq⟩
        exact ⟨s, by simp [firstAtMax, hx, hs]⟩

theorem foldl_pickStep_const : ∀ (es : List (String × Nat)) (n : String) (c : Int),
    (∀ e ∈ es, (e.2 : Int) ≤ c) → es.foldl pickStep (n, c) = (n, c) := by
  intro es
  induction es with
  | nil => intro n c _; rfl
  | cons x xs ih =>
    intro n c h
    have hx : ¬ ((x.2 : Int) > c) := not_lt.mpr (h x (List.mem_cons_self _ _))
    rw [List.foldl_cons]
    rw [show pickStep (n, c) x = (n, c) from if_neg hx]
    exact ih n c (fun e he => h e (List.mem_cons_of_mem x he))

/-- The selection fold returns the first entry whose count equals the
maximum, as soon as the maximum strictly exceeds the initial running
count. -/
theorem foldl_pickStep_max : ∀ (es : List (String × Nat)) (n : String) (c : Int),
    c < (maxVal es : Int) →
    (es.foldl pickStep (n, c)).1 = (firstAtMax (maxVal es) es).getD n := by
  intro es
  induction es with
  | nil => intro n c _; rfl
  | cons x xs ih =>
    intro n c h
    by_cases hle : maxVal xs ≤ x.2
    · have hmax : maxVal (x :: xs) = x.2 := by rw [maxVal_cons]; exact Nat.max_eq_left hle
      have hgt : c < (x.2 : Int) := by rw [hmax] at h; exact_mod_cast h
      rw [List.foldl_cons]
      rw [show pickStep (n, c) x = (x.1, (x.2 : Int)) from if_pos hgt]
      rw [foldl_pickStep_const xs x.1 (x.2 : Int)
        (fun e he => by exact_mod_cast le_trans (le_maxVal e he) hle)]
      rw [hmax]
      simp [firstAtMax]
    · push_neg at hle
      have hmax : maxVal (x :: xs) = maxVal xs := by
        rw [maxVal_cons]; exact Nat.max_eq_right (le_of_lt hle)
      have hxne : ¬ x.2 = maxVal xs := ne_of_lt hle
      have hxs_ne : xs ≠ [] := by
        intro hnil
        rw [hnil] at hle
        exact absurd hle (by simp [maxVal])
      obtain ⟨s, hs⟩ := firstAtMax_isSome (m := maxVal xs) (exists_maxVal hxs_ne)
      rw [hmax]
      by_cases hxc : c < (x.2 : Int)
      · rw [List.foldl_cons]
        rw [show pickStep (n, c) x = (x.1, (x.2 : Int)) from if_pos hxc]
        rw [ih x.1 (x.2 : Int) (by exact_mod_cast hle)]
        simp [firstAtMax, hxne, hs]
      · rw [List.foldl_cons]
        rw [show pickStep (n, c) x = (n, c) from if_neg hxc]
        rw [ih n c (by rw [hmax] at h; exact h)]
        simp [firstAtMax, hxne]

/-- The selection loop of the source computes exactly the label described
by the specification: the first-encountered name among those with the
greatest accumulated count, or the default when there are no entries. -/
theorem pickBest_eq_specLabel (d : String) (es : List (String × Nat)) :
    pickBest d es = specLabel d es := by
  cases es with
  | nil => rfl
  | cons e es2 =>
    have h : (-1 : Int) < (maxVal (e :: es2) : Int) := by
      have h0 : (0 : Int) ≤ (maxVal (e :: es2) : Int) := Int.ofNat_nonneg _
      omega
    simpa [pickBest, specLabel] using foldl_pickStep_max (e :: es2) d (-1) h

/- ------------------------------------------------------------------ -/
/- Vote accumulation bookkeeping.                                      -/
/- ------------------------------------------------------------------ -/

theorem lookup_bump_self (counts : List (String × Nat)) (name : String) (w : Nat) :
    lookupCount (bump counts name w) name
      = some ((lookupCount counts name).getD 0 + w) := by
  induction counts with
  | nil => simp [bump, lookupCount]
  | cons nc rest ih =>
    obtain ⟨n, c⟩ := nc
    by_cases h : n = name
    · subst h
      simp [bump, lookupCount]
    · simp only [bump, lookupCount, if_neg h, ih]

theorem lookup_bump_ne (counts : List (String × Nat)) (name : String) (w : Nat)
    (m : String) (h : name ≠ m) :
    lookupCount (bump counts name w) m = lookupCount counts m := by
  induction counts with
  | nil => simp [bump, lookupCount, h]
  | cons nc rest ih =>
    obtain ⟨n, c⟩ := nc
    by_cases hn : n = name
    · subst hn
      simp [bump, lookupCount, h, ih]
    · simp [bump, lookupCount, hn, ih]

/-- Each name accumulated by the vote loop carries exactly the sum of the
trip counts of the patterns that vote for it, on top of whatever the
incoming accumulator already stored for it. -/
theorem lookup_accumulateVotes : ∀ (ps : List Pattern) (counts : List (String × Nat))
    (name : String),
    lookupCount (accumulateVotes counts ps) name =
      match lookupCount counts name with
      | some c => some (c + voteTotal name ps)
      | none => if ps.any (votesFor name) = true then some (voteTotal name ps) else none := by
  intro ps
  induction ps with
  | nil =>
    intro counts name
    cases h : lookupCount counts name <;> simp [accumulateVotes, voteTotal, h]
  | cons p ps2 ih =>
    intro counts name
    cases hlast : p.path.getLast? with
    | none =>
      have hvote : votesFor name p = false := by
        simp [votesFor, lastStopName, hlast]
      have hstep : accumulateVotes counts (p :: ps2) = accumulateVotes counts ps2 := by
        simp [accumulateVotes, hlast]
      rw [hstep, ih counts name]
      have hany : (p :: ps2).any (votesFor name) = ps2.any (votesFor name) := by
        simp [List.any_cons, hvote]
      have htot : voteTotal name (p :: ps2) = voteTotal name ps2 := by
        simp [voteTotal, List.filter_cons, hvote]
      rw [hany, htot]
    | some entry =>
      have hstep : accumulateVotes counts (p :: ps2)
          = accumulateVotes (bump counts entry.stop.name p.trips.length) ps2 := by
        simp [accumulateVotes, hlast]
      rw [hstep, ih]
      by_cases hname : entry.stop.name = name
      · subst hname
        have hvote : votesFor entry.stop.name p = true := by
          simp [votesFor, lastStopName, hlast]
        have htot : voteTotal entry.stop.name (p :: ps2)
            = p.trips.length + voteTotal entry.stop.name ps2 := by
          simp [voteTotal, List.filter_cons, hvote]
        rw [lookup_bump_self, htot]
        cases hc : lookupCount counts entry.stop.name with
        | none => simp [List.any_cons, hvote, Nat.add_comm]
        | some c =>
          simp only [Option.getD_some]
          rw [Nat.add_assoc]
      · have hvote : votesFor name p = false := by
          simp [votesFor, lastStopName, hlast, hname]
        have htot : voteTotal name (p :: ps2) = voteTotal name ps2 := by
          simp [voteTotal, List.filter_cons, hvote]
        have hany : (p :: ps2).any (votesFor name) = ps2.any (votesFor name) := by
          simp [List.any_cons, hvote]
        rw [lookup_bump_ne counts entry.stop.name p.trips.length name hname, hany, htot]

/- ------------------------------------------------------------------ -/
/- Structural characterization of the serializer output.               -/
/- ------------------------------------------------------------------ -/

theorem concatMap_nil {α : Type} (f : α → String) : concatMap f [] = "" := rfl

theorem concatMap_cons {α : Type} (f : α → String) (x : α) (xs : List α) :
    concatMap f (x :: xs) = f x ++ concatMap f xs := rfl

theorem concatMap_congr {α : Type} {f g : α → String} (h : ∀ x, f x = g x) :
    ∀ l : List α, concatMap f l = concatMap g l := by
  intro l
  induction l with
  | nil => rfl
  | cons x xs ih => rw [concatMap_cons, concatMap_cons, h x, ih]

theorem foldl_append_concatMap {α : Type} (f : α → String) :
    ∀ (l : List α) (init : String),
      l.foldl (fun acc x => acc ++ f x) init = init ++ concatMap f l := by
  intro l
  induction l with
  | nil => intro init; rw [List.foldl_nil, concatMap_nil, String.append_empty]
  | cons x xs ih =>
    intro init
    rw [List.foldl_cons, ih (init ++ f x), concatMap_cons, String.append_assoc]

theorem foldl_append_ite {α : Type} (c : α → Bool) (f : α → String) :
    ∀ (l : List α) (init : String),
      l.foldl (fun acc x => if c x then acc ++ f x else acc) init
        = init ++ concatMap (fun x => if c x then f x else "") l := by
  intro l
  induction l with
  | nil => intro init; rw [List.foldl_nil, concatMap_nil, String.append_empty]
  | cons x xs ih =>
    intro init
    rw [List.foldl_cons, concatMap_cons]
    by_cases h : c x = true
    · rw [if_pos h, if_pos h, ih (init ++ f x), String.append_assoc]
    · rw [if_neg h, if_neg h, ih init, String.empty_append]

/-- The serializer output decomposes into the fixed header, the metadata
block, the optional waypoint section, and the track section. -/
theorem createGPX_eq (p : Pattern) (s : Shape) (b : Bool) :
    createGPX p s b = gpxHeader ++ metadataBlock p ++ wptSection p b ++ trkSection p s := by
  have htrk : concatMap
      (fun x : String × String =>
        "      <trkpt lat=\"" ++ (x.2 ++ ("\" lon=\"" ++ (x.1 ++ "\"></trkpt>\n"))))
      s.coordinates = concatMap trkptLine s.coordinates :=
    concatMap_congr (fun x => rfl) s.coordinates
  have hwpt : concatMap
      (fun e : PathEntry =>
        if e.stop.lat != "" && e.stop.lon != "" then
          "  <wpt lat=\"" ++ (e.stop.lat ++ ("\" lon=\"" ++ (e.stop.lon ++ ("\">\n"
            ++ ("    <name>" ++ (e.stop.name ++ ("</name>\n"
            ++ ("    <desc>Stop Sequence: " ++ (toString e.stop_sequence ++ ("</desc>\n"
            ++ "  </wpt>\n"))))))))))
        else "") p.path = concatMap wptBlock p.path :=
    concatMap_congr (fun e => rfl) p.path
  cases b with
  | false =>
    simp only [createGPX, foldl_append_concatMap, htrk, Bool.false_eq_true, if_false,
      gpxHeader, metadataBlock, wptSection, trkSection, trkName, dirWord,
      String.append_assoc, String.append_empty, String.empty_append]
  | true =>
    simp only [createGPX, foldl_append_ite, foldl_append_concatMap, htrk, hwpt, if_true,
      gpxHeader, metadataBlock, wptSection, trkSection, trkName, dirWord,
      String.append_assoc, String.append_empty, String.empty_append]

/- ------------------------------------------------------------------ -/
/- Resolver lemmas.                                                    -/
/- ------------------------------------------------------------------ -/

theorem flatMap_congr_mem {α β : Type} (l : List α) (f g : α → List β)
    (h : ∀ x ∈ l, f x = g x) : l.flatMap f = l.flatMap g := by
  induction l with
  | nil => rfl
  | cons x xs ih =>
    simp only [List.flatMap_cons]
    rw [h x (List.mem_cons_self _ _), ih (fun y hy => h y (List.mem_cons_of_mem x hy))]

/-- On trips with non-empty schedules, the guarded trip collection of the
source coincides with the plain filter-and-pair description. -/
theorem tripsFilterMap_eq (p : Pattern) (d : String) :
    ∀ l : List Trip, (∀ t ∈ l, t.schedule ≠ []) →
    l.filterMap (fun trip =>
      if trip.dates.contains d then
        match trip.schedule with
        | [] => none
        | firstStop :: _ =>
          some ({ trip := trip, pattern := p, startTime := firstStop.arrival_time } : TripData)
      else none)
    = (l.filter (fun t => t.dates.contains d)).map
        (fun t => ({ trip := t, pattern := p, startTime := tripStart t } : TripData)) := by
  intro l
  induction l with
  | nil => intro _; rfl
  | cons t ts ih =>
    intro h
    have hts := fun u hu => h u (List.mem_cons_of_mem t hu)
    by_cases hc : t.dates.contains d = true
    · cases hsc : t.schedule with
      | nil => exact absurd hsc (h t (List.mem_cons_self _ _))
      | cons e rest =>
        simp only [List.filterMap_cons, List.filter_cons, hc, if_pos, hsc, List.map_cons,
          ih hts]
        simp [tripStart, hsc]
    · simp only [List.filterMap_cons, List.filter_cons, hc, ih hts]
      simp [Bool.eq_false_iff.mpr hc]

theorem getTripsForDate_eq_spec (patterns : List Pattern) (dir : Nat) (d : String)
    (hinv : ∀ p ∈ patterns, ∀ t ∈ p.trips, t.schedule ≠ []) :
    getTripsForDate patterns dir d = specTripsForDate patterns dir d := by
  unfold getTripsForDate specTripsForDate
  apply flatMap_congr_mem
  intro p hp
  exact tripsFilterMap_eq p d p.trips (hinv p (List.mem_filter.mp hp).1)

theorem mem_getTripsForDate {patterns : List Pattern} {dir : Nat} {d : String}
    {p : Pattern} {t : Trip} {e : ScheduleEntry} {rest : List ScheduleEntry}
    (hp : p ∈ patterns) (hdir : p.direction = dir) (ht : t ∈ p.trips)
    (hd : d ∈ t.dates) (hsc : t.schedule = e :: rest) :
    ({ trip := t, pattern := p, startTime := e.arrival_time } : TripData)
      ∈ getTripsForDate patterns dir d := by
  unfold getTripsForDate
  apply List.mem_flatMap.mpr
  refine ⟨p, List.mem_filter.mpr ⟨hp, by simp [hdir]⟩, ?_⟩
  apply List.mem_filterMap.mpr
  refine ⟨t, ht, ?_⟩
  have hc : t.dates.contains d = true := List.elem_eq_true_of_mem hd
  simp [hc, hsc, hd]

theorem getTripsForDate_eq_nil_of_empty_schedules (patterns : List Pattern) (dir : Nat)
    (R : String)
    (hall : ∀ p ∈ patterns, p.direction = dir → ∀ t ∈ p.trips, R ∈ t.dates →
      t.schedule = []) :
    getTripsForDate patterns dir R = [] := by
  unfold getTripsForDate
  apply List.flatMap_eq_nil_iff.mpr
  intro p hp
  apply List.filterMap_eq_nil_iff.mpr
  intro t ht
  obtain ⟨hpmem, hpdir⟩ := List.mem_filter.mp hp
  have hdir : p.direction = dir := by simpa using hpdir
  by_cases hc : t.dates.contains R = true
  · have hmem : R ∈ t.dates := by simpa using hc
    have hsched := hall p hpmem hdir t ht hmem
    simp [hc, hsched]
  · have hcf : t.dates.contains R = false := Bool.eq_false_iff.mpr hc
    simp only [hcf, Bool.false_eq_true, if_false]

theorem mem_allServiceDates {patterns : List Pattern} {dir : Nat} {p : Pattern}
    {t : Trip} {R : String} (hp : p ∈ patterns) (hdir : p.direction = dir)
    (ht : t ∈ p.trips) (hd : R ∈ t.dates) : R ∈ allServiceDates patterns dir := by
  unfold allServiceDates
  exact List.mem_flatMap.mpr ⟨p, List.mem_filter.mpr ⟨hp, by simp [hdir]⟩,
    List.mem_flatMap.mpr ⟨t, ht, hd⟩⟩

theorem getTripsForDate_eq_nil_of_no_dates (patterns : List Pattern) (dir : Nat)
    (d : String) (hA : allServiceDates patterns dir = []) :
    getTripsForDate patterns dir d = [] := by
  have hdates : ∀ p ∈ patterns.filter (fun p => p.direction == dir),
      ∀ t ∈ p.trips, t.dates = [] := by
    intro p hp t ht
    have h1 := List.flatMap_eq_nil_iff.mp hA p hp
    exact List.flatMap_eq_nil_iff.mp h1 t ht
  unfold getTripsForDate
  apply List.flatMap_eq_nil_iff.mpr
  intro p hp
  apply List.filterMap_eq_nil_iff.mpr
  intro t ht
  have hd := hdates p hp t ht
  simp [hd]

/- ------------------------------------------------------------------ -/
/- Concrete fixtures used by counterexamples and witnesses.            -/
/- ------------------------------------------------------------------ -/

/-- Trip fixture with one schedule entry. -/
def mkTrip (i : String) (ds : List String) (arr : String) : Trip :=
  { id := i, dates := ds,
    schedule := [{ arrival_time := arr, stop_id := "s1", stop_sequence := 1 }] }

/-- Stop fixture named X. -/
def stopX : Stop := { id := "sX", name := "X", lat := "38.7", lon := "-9.1" }

/-- Stop fixture named Y. -/
def stopY : Stop := { id := "sY", name := "Y", lat := "38.8", lon := "-9.2" }

/-- Pattern fixture for claim C5: two trips, path ending at X. -/
def c5PatA : Pattern :=
  { id := "pA", line_id := "L", route_id := "R", short_name := some "12", direction := 0,
    path := [{ stop := stopX, stop_sequence := 1 }], shape_id := "shA",
    trips := [mkTrip "tA1" ["20240101"] "07:00:00", mkTrip "tA2" ["20240101"] "08:00:00"] }

/-- Pattern fixture for claim C5: five trips, path ending at Y. -/
def c5PatB : Pattern :=
  { id := "pB", line_id := "L", route_id := "R", short_name := some "12", direction := 0,
    path := [{ stop := stopY, stop_sequence := 1 }], shape_id := "shB",
    trips := [mkTrip "tB1" ["20240101"] "07:10:00", mkTrip "tB2" ["20240101"] "07:20:00",
              mkTrip "tB3" ["20240101"] "07:30:00", mkTrip "tB4" ["20240101"] "07:40:00",
              mkTrip "tB5" ["20240101"] "07:50:00"] }

/-- Pattern fixture for claim C1: zero trips, path ending at X. -/
def c1PatZero : Pattern :=
  { id := "pZ", line_id := "L", route_id := "R", short_name := some "12", direction := 0,
    path := [{ stop := stopX, stop_sequence := 1 }], shape_id := "shZ", trips := [] }

/-- Pattern fixture for claim C1: one trip, path ending at Y. -/
def c1PatOne : Pattern :=
  { id := "pO", line_id := "L", route_id := "R", short_name := some "12", direction := 0,
    path := [{ stop := stopY, stop_sequence := 1 }], shape_id := "shO",
    trips := [mkTrip "tO1" ["20240101"] "07:00:00"] }

/-- Pattern fixture for claim C3: one trip running on 20240101. -/
def c3Pat : Pattern :=
  { id := "p3", line_id := "L", route_id := "R", short_name := some "12", direction := 0,
    path := [{ stop := stopX, stop_sequence := 1 }], shape_id := "sh3",
    trips := [mkTrip "t31" ["20240101"] "07:30:00"] }

/-- Pattern fixture for claim C7: its only trip has an empty date set, so
the candidate date set of direction 0 is empty. -/
def c7Pat : Pattern :=
  { id := "p7", line_id := "L", route_id := "R", short_name := some "12", direction := 0,
    path := [], shape_id := "sh7",
    trips := [{ id := "t71", dates := [], schedule := [] }] }

/-- Pattern fixture for claim C8: the trip on the requested date 20240103
has an empty schedule, while another trip on 20240105 has a real
schedule. -/
def c8Pat : Pattern :=
  { id := "p8", line_id := "L", route_id := "R", short_name := some "12", direction := 0,
    path := [], shape_id := "sh8",
    trips := [{ id := "t81", dates := ["20240103"], schedule := [] },
              mkTrip "t82" ["20240105"] "08:00:00"] }

/-- Shape fixture of the specification example: two coordinates given in
(longitude, latitude) order. -/
def c4Shape : Shape := { coordinates := [("-9.1", "38.7"), ("-9.2", "38.8")] }

/-- Pattern fixture for claim C4. -/
def c4Pattern : Pattern :=
  { id := "1234_0_1", line_id := "1234", route_id := "1234_0", short_name := some "1234",
    direction := 0, path := [{ stop := stopX, stop_sequence := 1 }], shape_id := "sh1",
    trips := [] }

/-- Pattern fixture for claim C10: the short name is absent. -/
def c10Pat : Pattern :=
  { id := "4701_0_2", line_id := "4701", route_id := "4701_0", short_name := none,
    direction := 1, path := [{ stop := stopX, stop_sequence := 1 }], shape_id := "sh10",
    trips := [] }

/- ------------------------------------------------------------------ -/
/- Claim theorems.                                                     -/
/- ------------------------------------------------------------------ -/

/-- Claim C1, counterexample. The claim states that a pattern with zero
trips votes with weight 1, never weight 0. On the code, a pattern with an
empty trips array receives weight 0, because an empty array is truthy: the
fixture with a zero-trip pattern ending at X before a one-trip pattern
ending at Y accumulates the counts X maps to 0 and Y maps to 1, so the
inferred label is Y, while the weighting described by the claim would give
X weight 1 and pick X on the tie by first-encountered order. -/
theorem C1_counterexample :
    accumulateVotes [] [c1PatZero, c1PatOne] = [("X", 0), ("Y", 1)]
    ∧ getDestinationName [c1PatZero, c1PatOne] 0 = "Y"
    ∧ getDestinationNameSpecC1 [c1PatZero, c1PatOne] 0 = "X" :=
  ⟨by decide, by decide, by decide⟩

/-- Claim C1 as amended: in the vote accumulation of the label inference,
each destination name accumulates exactly the sum of the trip counts of
the direction patterns with a non-empty path ending at it; a pattern with
zero trips therefore contributes weight 0, not 1 — its name still enters
the tally, with count 0. -/
theorem C1_vote_weight (patterns : List Pattern) (dir : Nat) (name : String) :
    lookupCount (accumulateVotes [] (patterns.filter (fun p => p.direction == dir))) name
      = (if (patterns.filter (fun p => p.direction == dir)).any (votesFor name) = true
          then some (voteTotal name (patterns.filter (fun p => p.direction == dir)))
          else none) := by
  have h := lookup_accumulateVotes (patterns.filter (fun p => p.direction == dir)) [] name
  simpa [lookupCount] using h

/-- Claim C2: on the sorted non-empty candidate set, the fallback date is
the greatest available date at or before the request when one exists, and
the least available date otherwise; in particular the two dates of the
specification example both fall back to 20240101. -/
theorem C2_fallback_date (target : String) (A : List String)
    (hs : A.Pairwise (fun a b => strLe a b = true)) (hne : A ≠ []) :
    ((A.filter (fun d => strLe d target) ≠ [] →
        findClosestDate target A ∈ A ∧ strLe (findClosestDate target A) target = true ∧
          ∀ d ∈ A, strLe d target = true → strLe d (findClosestDate target A) = true)
      ∧ (A.filter (fun d => strLe d target) = [] →
        findClosestDate target A ∈ A ∧ ∀ d ∈ A, strLe (findClosestDate target A) d = true))
    ∧ findClosestDate "20240103" ["20240101", "20240105", "20240110"] = "20240101"
    ∧ findClosestDate "20231225" ["20240101", "20240105", "20240110"] = "20240101" :=
  ⟨⟨fun hP => findClosestDate_max target hs hne hP,
    fun hP => findClosestDate_min target hs hne hP⟩, by decide, by decide⟩

/-- Witness for claim C2 at the specification example. -/
theorem C2_fallback_date_witness :
    findClosestDate "20240103" ["20240101", "20240105", "20240110"] = "20240101" :=
  (C2_fallback_date "20240103" ["20240101", "20240105", "20240110"]
    (by decide) (by decide)).2.1

/-- Claim C3: when the requested date is in the service-date set of some
trip of the selected direction, and schedules are non-empty as the data
model requires of selectable trips, the resolver returns exactly the trips
whose date set contains the date, each paired with its pattern and first
arrival time, with the fallback flag unset. -/
theorem C3_exact_date (patterns : List Pattern) (dir : Nat) (d : String)
    (hinv : ∀ p ∈ patterns, ∀ t ∈ p.trips, t.schedule ≠ [])
    (hd : ∃ p ∈ patterns, p.direction = dir ∧ ∃ t ∈ p.trips, d ∈ t.dates) :
    resolveItinerary patterns dir d =
      { trips := specTripsForDate patterns dir d, isFallback := false,
        fallbackDate := none } := by
  obtain ⟨p, hp, hpdir, t, ht, htd⟩ := hd
  obtain ⟨e, rest, hsc⟩ : ∃ e rest, t.schedule = e :: rest := by
    cases hsc : t.schedule with
    | nil => exact absurd hsc (hinv p hp t ht)
    | cons e rest => exact ⟨e, rest, rfl⟩
  have hmem : ({ trip := t, pattern := p, startTime := e.arrival_time } : TripData)
      ∈ getTripsForDate patterns dir d := mem_getTripsForDate hp hpdir ht htd hsc
  have hne : getTripsForDate patterns dir d ≠ [] := List.ne_nil_of_mem hmem
  have hempty : (getTripsForDate patterns dir d).isEmpty = false :=
    Bool.eq_false_iff.mpr (fun h => hne (List.isEmpty_iff.mp h))
  have hspec := getTripsForDate_eq_spec patterns dir d hinv
  simp only [resolveItinerary, hempty, Bool.false_and, Bool.false_eq_true, if_false]
  rw [hspec]

/-- Witness for claim C3 on a one-pattern, one-trip fixture. -/
theorem C3_exact_date_witness :
    resolveItinerary [c3Pat] 0 "20240101" =
      { trips := specTripsForDate [c3Pat] 0 "20240101", isFallback := false,
        fallbackDate := none } :=
  C3_exact_date [c3Pat] 0 "20240101" (by decide) (by decide)

set_option maxRecDepth 80000 in
/-- Claim C4: the serializer emits exactly one track point per shape
coordinate, in shape order, with the axis order swapped from (longitude,
latitude) to (latitude, longitude); on the specification example the
document carries exactly two trkpt elements in order and zero wpt elements
when stops are not requested. -/
theorem C4_track_serialization :
    (∀ (p : Pattern) (s : Shape) (b : Bool),
      createGPX p s b = gpxHeader ++ metadataBlock p ++ wptSection p b ++ trkSection p s)
    ∧ concatMap trkptLine c4Shape.coordinates
        = "      <trkpt lat=\"38.7\" lon=\"-9.1\"></trkpt>\n"
          ++ "      <trkpt lat=\"38.8\" lon=\"-9.2\"></trkpt>\n"
    ∧ createGPX c4Pattern c4Shape false =
        "<?xml version=\"1.0\" encoding=\"UTF-8\"?>\n<gpx version=\"1.1\" creator=\"CarrisDriverApp\" xmlns=\"http://www.topografix.com/GPX/1/1\">\n  <metadata>\n    <name>1234</name>\n  </metadata>\n  <trk>\n    <name>1234 (Ida)</name>\n    <trkseg>\n      <trkpt lat=\"38.7\" lon=\"-9.1\"></trkpt>\n      <trkpt lat=\"38.8\" lon=\"-9.2\"></trkpt>\n    </trkseg>\n  </trk>\n</gpx>"
    ∧ countOccur "<trkpt".data (createGPX c4Pattern c4Shape false).data = 2
    ∧ countOccur "<wpt".data (createGPX c4Pattern c4Shape false).data = 0 :=
  ⟨createGPX_eq, by decide, by decide, by decide, by decide⟩

/-- Claim C5: the inferred label for a direction with patterns is the
specification selection (first-encountered name of strictly greatest
accumulated weight) over the accumulated votes; a direction with no
patterns yields the literal Ida or Volta; a pattern with an empty path
contributes no vote; and the two-pattern example with 2 trips to X and 5
trips to Y resolves to Y. -/
theorem C5_label_inference :
    (∀ (patterns : List Pattern) (dir : Nat),
      patterns.filter (fun p => p.direction == dir) ≠ [] →
      getDestinationName patterns dir
        = specLabel (if dir == 0 then "Ida" else "Volta")
            (accumulateVotes [] (patterns.filter (fun p => p.direction == dir))))
    ∧ (∀ (patterns : List Pattern) (dir : Nat),
      patterns.filter (fun p => p.direction == dir) = [] →
      getDestinationName patterns dir = (if dir == 0 then "Ida" else "Volta"))
    ∧ (∀ (counts : List (String × Nat)) (p : Pattern) (ps : List Pattern), p.path = [] →
      accumulateVotes counts (p :: ps) = accumulateVotes counts ps)
    ∧ getDestinationName [c5PatA, c5PatB] 0 = "Y" := by
  refine ⟨?_, ?_, ?_, by decide⟩
  · intro patterns dir h
    have hlen : ¬ (patterns.filter (fun p => p.direction == dir)).length = 0 :=
      fun hl => h (List.length_eq_zero.mp hl)
    simp only [getDestinationName, if_neg hlen]
    exact pickBest_eq_specLabel _ _
  · intro patterns dir h
    have hlen : (patterns.filter (fun p => p.direction == dir)).length = 0 := by
      rw [h]; rfl
    simp [getDestinationName, hlen]
  · intro counts p ps h
    simp [accumulateVotes, h]

/-- Witness for claim C5: a direction with no patterns falls back to the
literal label. -/
theorem C5_label_inference_witness : getDestinationName [] 1 = "Volta" := by
  have h := C5_label_inference.2.1 [] 1 rfl
  simpa using h

/-- Claim C6: trip ordering returns a permutation of its input whose start
times are non-decreasing in lexicographic order, and entries with the same
start time keep their relative input order. -/
theorem C6_trip_ordering (l : List TripData) :
    List.Perm (sortTrips l) l
    ∧ (sortTrips l).Pairwise (fun a b => strLe a.startTime b.startTime = true)
    ∧ ∀ t : String,
        (sortTrips l).filter (fun x => x.startTime == t)
          = l.filter (fun x => x.startTime == t) :=
  ⟨sortKeyed_perm _ l, sortKeyed_pairwise _ l, fun t => sortKeyed_filter _ t l⟩

/-- Claim C7: when the union of service dates of the selected direction is
empty, the resolver returns an empty itinerary with no fallback. The
resolution functions are total Lean functions, mirroring the fact that
every array access in the source is guarded, so no input throws. -/
theorem C7_empty_candidates (patterns : List Pattern) (dir : Nat) (d : String)
    (hA : allServiceDates patterns dir = []) :
    resolveItinerary patterns dir d =
      { trips := [], isFallback := false, fallbackDate := none } := by
  have htrips := getTripsForDate_eq_nil_of_no_dates patterns dir d hA
  simp only [resolveItinerary, htrips, hA, List.isEmpty_nil, Bool.not_true,
    Bool.and_false, Bool.false_eq_true, if_false]

/-- Witness for claim C7 on a fixture whose only trip has no service
dates. -/
theorem C7_empty_candidates_witness :
    resolveItinerary [c7Pat] 0 "20240101" =
      { trips := [], isFallback := false, fallbackDate := none } :=
  C7_empty_candidates [c7Pat] 0 "20240101" (by decide)

/-- Claim C8: when every trip of the selected direction running on the
requested date has an empty schedule, the resolver returns an empty
itinerary with the fallback flag unset, even if other candidate dates
carry trips with real schedules: the requested date is itself a candidate,
findClosestDate returns it unchanged, and the guard requiring the fallback
date to differ suppresses the fallback run. -/
theorem C8_empty_schedule_suppresses_fallback (patterns : List Pattern) (dir : Nat)
    (R : String)
    (hex : ∃ p ∈ patterns, p.direction = dir ∧ ∃ t ∈ p.trips, R ∈ t.dates)
    (hall : ∀ p ∈ patterns, p.direction = dir → ∀ t ∈ p.trips, R ∈ t.dates →
      t.schedule = []) :
    resolveItinerary patterns dir R =
      { trips := [], isFallback := false, fallbackDate := none } := by
  obtain ⟨p, hp, hpdir, t, ht, htd⟩ := hex
  have htrips := getTripsForDate_eq_nil_of_empty_schedules patterns dir R hall
  have hRav : R ∈ allServiceDates patterns dir := mem_allServiceDates hp hpdir ht htd
  have hAne : allServiceDates patterns dir ≠ [] := List.ne_nil_of_mem hRav
  have hav : (allServiceDates patterns dir).isEmpty = false :=
    Bool.eq_false_iff.mpr (fun h => hAne (List.isEmpty_iff.mp h))
  have hsorted : (sortKeyed id (allServiceDates patterns dir).dedup).Pairwise
      (fun a b => strLe a b = true) := sortKeyed_pairwise id _
  have hRmem : R ∈ sortKeyed id (allServiceDates patterns dir).dedup :=
    (mem_sortKeyed id _ R).mpr (List.mem_dedup.mpr hRav)
  have hfb : findClosestDate R (sortKeyed id (allServiceDates patterns dir).dedup) = R :=
    findClosestDate_self hsorted hRmem
  simp only [resolveItinerary, htrips, List.isEmpty_nil, hav, Bool.not_false,
    Bool.and_true, if_true, hfb, bne_self_eq_false, Bool.false_eq_true, if_false]

/-- Witness for claim C8: the fixture has an empty-schedule trip on the
requested date 20240103 and a real trip on 20240105, and resolution
returns an empty itinerary with no fallback. -/
theorem C8_empty_schedule_suppresses_fallback_witness :
    resolveItinerary [c8Pat] 0 "20240103" =
      { trips := [], isFallback := false, fallbackDate := none } :=
  C8_empty_schedule_suppresses_fallback [c8Pat] 0 "20240103" (by decide) (by decide)

/-- Claim C9: the serializer is deterministic. It is a pure function of
the pattern, shape and flag, so equal inputs give character-for-character
equal documents; moreover the output reads none of the pattern fields
beyond id, short name, direction and path, so varying the others cannot
change the document. -/
theorem C9_deterministic :
    (∀ (p₁ p₂ : Pattern) (s₁ s₂ : Shape) (b₁ b₂ : Bool),
      p₁ = p₂ → s₁ = s₂ → b₁ = b₂ → createGPX p₁ s₁ b₁ = createGPX p₂ s₂ b₂)
    ∧ (∀ (i lid lid2 rid rid2 : String) (sn : Option String) (dir : Nat)
        (path : List PathEntry) (shid shid2 : String) (trips trips2 : List Trip)
        (s : Shape) (b : Bool),
        createGPX ⟨i, lid, rid, sn, dir, path, shid, trips⟩ s b
          = createGPX ⟨i, lid2, rid2, sn, dir, path, shid2, trips2⟩ s b) := by
  constructor
  · intro p₁ p₂ s₁ s₂ b₁ b₂ hp hs hb
    subst hp; subst hs; subst hb
    rfl
  · intro i lid lid2 rid rid2 sn dir path shid shid2 trips trips2 s b
    rfl

/-- Witness for claim C9 at a concrete pattern, shape and flag. -/
theorem C9_deterministic_witness :
    createGPX c4Pattern c4Shape false = createGPX c4Pattern c4Shape false :=
  C9_deterministic.1 c4Pattern c4Pattern c4Shape c4Shape false false rfl rfl rfl

/-- Claim C10: when the pattern short name is absent, the metadata name
falls back to the pattern id, while the track name interpolates the absent
value as the literal text undefined before the direction word. -/
theorem C10_metadata_vs_track_name (p : Pattern) (s : Shape) (b : Bool)
    (h : p.short_name = none) :
    createGPX p s b =
      gpxHeader ++ ("  <metadata>\n    <name>" ++ p.id ++ "</name>\n  </metadata>\n")
        ++ wptSection p b
        ++ ("  <trk>\n"
            ++ ("    <name>" ++ "undefined" ++ " (" ++ dirWord p.direction ++ ")</name>\n")
            ++ "    <trkseg>\n" ++ concatMap trkptLine s.coordinates
            ++ "    </trkseg>\n" ++ "  </trk>\n" ++ "</gpx>") := by
  rw [createGPX_eq]
  simp only [metadataBlock, trkSection, trkName, jsOr, jsInterp, h, String.append_assoc]

/-- Witness for claim C10 on a fixture with an absent short name. -/
theorem C10_metadata_vs_track_name_witness :
    createGPX c10Pat c4Shape false =
      gpxHeader
        ++ ("  <metadata>\n    <name>" ++ c10Pat.id ++ "</name>\n  </metadata>\n")
        ++ wptSection c10Pat false
        ++ ("  <trk>\n"
            ++ ("    <name>" ++ "undefined" ++ " (" ++ dirWord c10Pat.direction
              ++ ")</name>\n")
            ++ "    <trkseg>\n" ++ concatMap trkptLine c4Shape.coordinates
            ++ "    </trkseg>\n" ++ "  </trk>\n" ++ "</gpx>") :=
  C10_metadata_vs_track_name c10Pat c4Shape false rfl

end Carris
